import Mathlib

/-!
Verification of the Mistral chat relay: a server-side proxy forwarder with a
model-fallback retry loop, and a client-side incremental stream renderer.
The definitions below are a shallow embedding of the TypeScript source:
the proxy route handler, the shared SSE delta extraction, and the page
component's send/stop logic.
-/

set_option maxRecDepth 4000

/-! ## Server-side data model (app/api/chat/route.ts) -/

/-- A chat message as received by the proxy route: role, content and the
optional tool invocation list (empty list models an absent or empty
`tool_calls` field). -/
structure Msg where
  role : String
  content : String
  tool_calls : List String
deriving DecidableEq

/-- The parsed JSON request body of the route:
`\x7b messages, model?, temperature? \x7d`. -/
structure Payload where
  messages : List Msg
  model : Option String
  temperature : Option Rat

/-- Server environment: `MISTRAL_API_KEY`, the CA bundle path selected by the
search loop (if any), and the `ALLOW_INSECURE_TLS` flag. -/
structure Env where
  key : Option String
  caPathUsed : Option String
  allowInsecure : Bool

/-- One upstream (axios) response: HTTP status and the response stream, read
either as the forwarded SSE body or as the error text (`none` models a
missing `res.data`). -/
structure UpstreamRes where
  status : Nat
  data : Option String
deriving DecidableEq

/-- The JSON body the proxy posts upstream:
`\x7b model, messages, temperature, stream: true, safe_prompt: true \x7d`. -/
structure UpstreamRequest where
  model : String
  messages : List Msg
  temperature : Rat
  stream : Bool
  safe_prompt : Bool
deriving DecidableEq

/-- The response the route hands back to the browser: status, body text (or
forwarded stream) and the optional `X-Model-Used` header. -/
structure ProxyResponse where
  status : Nat
  body : String
  modelUsed : Option String
deriving DecidableEq

/-- Whitespace as recognised by JavaScript string trimming. -/
def wsChar (c : Char) : Bool :=
  c = ' ' || c = '\t' || c = '\n' || c = '\r' || c = '\x0b' || c = '\x0c'

/-- The embedding of `String.prototype.trim`: strip leading and trailing
whitespace. -/
def strTrim (s : String) : String :=
  String.mk (((s.data.dropWhile wsChar).reverse.dropWhile wsChar).reverse)

/-- Lowercasing of one character (ASCII range, all that the matched
patterns contain). -/
def lowerChar (c : Char) : Char :=
  if 'A' ≤ c ∧ c ≤ 'Z' then Char.ofNat (c.toNat + 32) else c

/-- The embedding of `String.prototype.toLowerCase`. -/
def strLower (s : String) : String := String.mk (s.data.map lowerChar)

/-- The placeholder filter of the route (lines 53-58): drop assistant
messages whose content is empty or whitespace and which carry no tool
invocation. -/
def filterMessages (incoming : List Msg) : List Msg :=
  incoming.filter fun m =>
    !(m.role == "assistant" && strTrim m.content == "" && m.tool_calls.isEmpty)

/-- Test whether the character list `hay` begins with `needle`. -/
def leadsWith : List Char → List Char → Bool
  | [], _ => true
  | _ :: _, [] => false
  | c :: cs, d :: ds => c == d && leadsWith cs ds

/-- Test whether `needle` occurs contiguously inside the list. -/
def occursIn (needle : List Char) : List Char → Bool
  | [] => needle.isEmpty
  | d :: tl => leadsWith needle (d :: tl) || occursIn needle tl

/-- Substring test on strings (models `RegExp.test` with a literal pattern). -/
def containsStr (hay needle : String) : Bool :=
  occursIn needle.data hay.data

/-- The embedding of `String.prototype.startsWith`. -/
def strBegins (s p : String) : Bool := leadsWith p.data s.data

/-- The embedding of `String.prototype.slice` from a character offset. -/
def strDrop (s : String) (n : Nat) : String := String.mk (s.data.drop n)

/-- Axios success test used by the route: `res.status >= 200 && res.status < 300`. -/
def isSuccessStatus (s : Nat) : Bool := 200 ≤ s && s < 300

/-- The error text read from a non-success upstream response (`''` when
`res.data` is absent). -/
def errTextOf (r : UpstreamRes) : String := r.data.getD ""

/-- The capacity-exceeded message pattern of the route. -/
def capacityPattern : String := "service_tier_capacity_exceeded"

/-- The route's capacity test (line 134):
`res.status === 429 || /service_tier_capacity_exceeded/i.test(errText)`. -/
def is429 (status : Nat) (errText : String) : Bool :=
  status == 429 || containsStr (strLower errText) capacityPattern

/-- JSON string quoting as used by `JSON.stringify` on the model names and
paths occurring here (no escaping needed for those values). -/
def jsonQuote (s : String) : String := "\"" ++ s ++ "\""

/-- Rendering of a boolean by `JSON.stringify`. -/
def jsonBool (b : Bool) : String := if b then "true" else "false"

/-- Rendering of the comma-separated elements of a string array by
`JSON.stringify`. -/
def jsonStrListAux : List String → String
  | [] => ""
  | [s] => jsonQuote s
  | s :: rest => jsonQuote s ++ "," ++ jsonStrListAux rest

/-- Rendering of a list of strings as a JSON array by `JSON.stringify`. -/
def jsonStrList (l : List String) : String := "[" ++ jsonStrListAux l ++ "]"

/-- The diagnostic metadata appended to a non-capacity upstream error
(line 136): `JSON.stringify(\x7b status, modelTried, caPathUsed, allowInsecure \x7d)`;
an absent `caPathUsed` is omitted, as `JSON.stringify` drops undefined fields. -/
def metaError (status : Nat) (modelTried : String) (env : Env) : String :=
  "\x7b\"status\":" ++ toString status ++ ",\"modelTried\":" ++ jsonQuote modelTried
    ++ (match env.caPathUsed with
        | some p => ",\"caPathUsed\":" ++ jsonQuote p
        | none => "")
    ++ ",\"allowInsecure\":" ++ jsonBool env.allowInsecure ++ "\x7d"

/-- The metadata of the final capacity-exhausted response (line 145):
`JSON.stringify(\x7b caPathUsed, allowInsecure, tried \x7d)`. -/
def metaCapacity (env : Env) (tried : List String) : String :=
  "\x7b" ++ (match env.caPathUsed with
      | some p => "\"caPathUsed\":" ++ jsonQuote p ++ ","
      | none => "")
    ++ "\"allowInsecure\":" ++ jsonBool env.allowInsecure
    ++ ",\"tried\":" ++ jsonStrList tried ++ "\x7d"

/-- The response for a non-capacity upstream error (line 137):
`Upstream $\x7bstatus\x7d: $\x7berrText\x7d\n$\x7bmeta\x7d` with the upstream status. -/
def upstreamErrResponse (r : UpstreamRes) (m : String) (env : Env) : ProxyResponse :=
  { status := r.status
    body := "Upstream " ++ toString r.status ++ ": " ++ errTextOf r ++ "\n"
              ++ metaError r.status m env
    modelUsed := none }

/-- The final 429 response after all candidates fail on capacity (line 146). -/
def capacityResponse (env : Env) (tried : List String) : ProxyResponse :=
  { status := 429
    body := "Capacity exceeded for all candidates.\n" ++ metaCapacity env tried
    modelUsed := none }

/-- One attempt of the inner loop body (lines 95-139): `some` is a terminal
response (success passthrough with the `X-Model-Used` header, or a
non-capacity error bubbled up); `none` means a capacity signal, so the loop
continues. -/
def attemptOnce (env : Env) (m : String) (r : UpstreamRes) : Option ProxyResponse :=
  if isSuccessStatus r.status && r.data.isSome then
    some { status := 200, body := r.data.getD "", modelUsed := some m }
  else if is429 r.status (errTextOf r) then none
  else some (upstreamErrResponse r m env)

/-- The upstream request body built for model `m` (line 97). -/
def mkRequest (m : String) (msgs : List Msg) (temp : Rat) : UpstreamRequest :=
  { model := m, messages := msgs, temperature := temp
    stream := true, safe_prompt := true }

/-- The nested candidate/attempt loop (lines 87-142). `upstream k` is the
response to the `k`-th request issued overall; the returned list is the
trace of upstream request bodies actually issued, in order. Each candidate
gets at most two attempts; a terminal response ends the loop; running out of
candidates yields the capacity-exhausted response. -/
def tryCandidates (env : Env) (upstream : Nat → UpstreamRes) (msgs : List Msg)
    (temp : Rat) (tried : List String) :
    List String → Nat → ProxyResponse × List UpstreamRequest
  | [], _ => (capacityResponse env tried, [])
  | m :: rest, k =>
    match attemptOnce env m (upstream k) with
    | some resp => (resp, [mkRequest m msgs temp])
    | none =>
      match attemptOnce env m (upstream (k + 1)) with
      | some resp => (resp, [mkRequest m msgs temp, mkRequest m msgs temp])
      | none =>
        let r := tryCandidates env upstream msgs temp tried rest (k + 2)
        (r.1, mkRequest m msgs temp :: mkRequest m msgs temp :: r.2)

/-- The route handler `POST` (lines 38-158). `reqBody` is the result of
`req.json()` (`Except.error` models a JSON parse failure); `upstream` gives
the upstream response to each issued request in order. Returns the response
together with the trace of upstream requests issued. -/
def POST (env : Env) (reqBody : Except String Payload)
    (upstream : Nat → UpstreamRes) : ProxyResponse × List UpstreamRequest :=
  match env.key with
  | none => ({ status := 500, body := "missing MISTRAL_API_KEY", modelUsed := none }, [])
  | some _ =>
    match reqBody with
    | .error e =>
      ({ status := 400, body := "Bad request JSON: " ++ e, modelUsed := none }, [])
    | .ok payload =>
      let preferModel := payload.model.getD "mistral-large-latest"
      let temperature := payload.temperature.getD (2 / 10 : Rat)
      let msgs := filterMessages payload.messages
      let modelCandidates :=
        [preferModel, "mistral-medium-latest", "mistral-small-latest"]
      tryCandidates env upstream msgs temperature modelCandidates modelCandidates 0

/-- A capacity signal as the claims describe it: the response is not a
success (so the error branch runs) and the route's capacity test holds. -/
def capacitySignal (r : UpstreamRes) : Bool :=
  !(isSuccessStatus r.status && r.data.isSome) && is429 r.status (errTextOf r)

/-- A successful upstream response: 2xx status with a body stream present. -/
def upstreamSuccess (r : UpstreamRes) : Bool :=
  isSuccessStatus r.status && r.data.isSome

/-! ## Client-side data model (app/page.tsx and lib/sse.ts) -/

/-- A client-side chat message: role (user, assistant or system) and content. -/
structure CMsg where
  role : String
  content : String
deriving DecidableEq

/-- JSON values, the image of `JSON.parse`. Numbers are kept as their raw
source text, which suffices here since no parsed number is ever inspected. -/
inductive JsonVal where
  | null
  | bool (b : Bool)
  | num (raw : String)
  | str (s : String)
  | arr (elems : List JsonVal)
  | obj (fields : List (String × JsonVal))

/-- Skip JSON insignificant whitespace. -/
def skipWs : List Char → List Char
  | [] => []
  | c :: cs => if c = ' ' || c = '\t' || c = '\n' || c = '\r' then skipWs cs else c :: cs

/-- Value of a hexadecimal digit character. -/
def hexVal? (c : Char) : Option Nat :=
  if c.isDigit then some (c.toNat - '0'.toNat)
  else if 'a' ≤ c ∧ c ≤ 'f' then some (c.toNat - 'a'.toNat + 10)
  else if 'A' ≤ c ∧ c ≤ 'F' then some (c.toNat - 'A'.toNat + 10)
  else none

/-- Parse the body of a JSON string after the opening quote, handling the
escape sequences `JSON.parse` accepts; returns the decoded string and the
remaining input. The fuel bound is exact when at least the input length:
every step consumes at least one input character. -/
def parseStrAux : Nat → List Char → List Char → Option (String × List Char)
  | 0, _, _ => none
  | _ + 1, _, [] => none
  | fuel + 1, acc, c :: cs =>
    if c = '"' then some (String.mk acc.reverse, cs)
    else if c = '\\' then
      match cs with
      | [] => none
      | e :: cs2 =>
        if e = '"' then parseStrAux fuel ('"' :: acc) cs2
        else if e = '\\' then parseStrAux fuel ('\\' :: acc) cs2
        else if e = '/' then parseStrAux fuel ('/' :: acc) cs2
        else if e = 'b' then parseStrAux fuel (Char.ofNat 8 :: acc) cs2
        else if e = 'f' then parseStrAux fuel (Char.ofNat 12 :: acc) cs2
        else if e = 'n' then parseStrAux fuel ('\n' :: acc) cs2
        else if e = 'r' then parseStrAux fuel ('\r' :: acc) cs2
        else if e = 't' then parseStrAux fuel ('\t' :: acc) cs2
        else if e = 'u' then
          match cs2 with
          | h1 :: h2 :: h3 :: h4 :: cs3 =>
            match hexVal? h1, hexVal? h2, hexVal? h3, hexVal? h4 with
            | some a, some b, some c1, some d =>
              parseStrAux fuel (Char.ofNat (((a * 16 + b) * 16 + c1) * 16 + d) :: acc) cs3
            | _, _, _, _ => none
          | _ => none
        else none
    else parseStrAux fuel (c :: acc) cs

/-- Parse an optional JSON exponent part, returning its raw characters. -/
def parseExpPart : List Char → Option (List Char × List Char)
  | 'e' :: rest => parseExpSign 'e' rest
  | 'E' :: rest => parseExpSign 'E' rest
  | s => some ([], s)
where
  parseExpSign (e : Char) (s : List Char) : Option (List Char × List Char) :=
    let sgnRest : List Char × List Char :=
      match s with
      | '+' :: r => (['+'], r)
      | '-' :: r => (['-'], r)
      | _ => ([], s)
    let ds := sgnRest.2.takeWhile Char.isDigit
    let s2 := sgnRest.2.dropWhile Char.isDigit
    if ds.isEmpty then none else some (e :: sgnRest.1 ++ ds, s2)

/-- Parse the digits of a JSON number after an optional leading minus. -/
def parseNumAux (s : List Char) : Option (List Char × List Char) :=
  let ip := s.takeWhile Char.isDigit
  let s2 := s.dropWhile Char.isDigit
  if ip.isEmpty then none
  else
    match s2 with
    | '.' :: rest =>
      let fp := rest.takeWhile Char.isDigit
      let s3 := rest.dropWhile Char.isDigit
      if fp.isEmpty then none
      else
        match parseExpPart s3 with
        | some (ep, s4) => some (ip ++ '.' :: (fp ++ ep), s4)
        | none => none
    | _ =>
      match parseExpPart s2 with
      | some (ep, s4) => some (ip ++ ep, s4)
      | none => none

/-- Parse a JSON number, returning its raw text and the remaining input. -/
def parseNumber (s : List Char) : Option (String × List Char) :=
  match s with
  | '-' :: rest => (parseNumAux rest).map fun p => (String.mk ('-' :: p.1), p.2)
  | _ => (parseNumAux s).map fun p => (String.mk p.1, p.2)

/-- Match an expected literal character sequence. -/
def expectLit : List Char → List Char → Option (List Char)
  | [], rest => some rest
  | _ :: _, [] => none
  | l :: ls, c :: cs => if c = l then expectLit ls cs else none

/-- The three continuation modes of the recursive-descent JSON parser: a
value, the remaining members of an object, or the remaining elements of an
array. -/
inductive ParseMode where
  | value
  | objFields (acc : List (String × JsonVal))
  | arrElems (acc : List JsonVal)

/-- Fuel-bounded recursive-descent JSON parser covering values, object
members and array elements, the image of `JSON.parse` on a well-formed
prefix. Twice the input length bounds the fuel any input can consume, so
the fuel passed by `jsonParse` is never exhausted. -/
def parseStep : Nat → ParseMode → List Char → Option (JsonVal × List Char)
  | 0, _, _ => none
  | fuel + 1, .value, s =>
    match skipWs s with
    | [] => none
    | c :: cs =>
      if c = '"' then
        match parseStrAux (cs.length + 1) [] cs with
        | some (str, rest) => some (.str str, rest)
        | none => none
      else if c = Char.ofNat 123 then
        match skipWs cs with
        | d :: rest =>
          if d = Char.ofNat 125 then some (.obj [], rest)
          else parseStep fuel (.objFields []) cs
        | [] => none
      else if c = '[' then
        match skipWs cs with
        | d :: rest =>
          if d = ']' then some (.arr [], rest)
          else parseStep fuel (.arrElems []) cs
        | [] => none
      else if c = 't' then
        match expectLit ['r', 'u', 'e'] cs with
        | some rest => some (.bool true, rest)
        | none => none
      else if c = 'f' then
        match expectLit ['a', 'l', 's', 'e'] cs with
        | some rest => some (.bool false, rest)
        | none => none
      else if c = 'n' then
        match expectLit ['u', 'l', 'l'] cs with
        | some rest => some (.null, rest)
        | none => none
      else
        match parseNumber (c :: cs) with
        | some (raw, rest) => some (.num raw, rest)
        | none => none
  | fuel + 1, .objFields acc, s =>
    match skipWs s with
    | '"' :: cs =>
      match parseStrAux (cs.length + 1) [] cs with
      | some (key, rest) =>
        match skipWs rest with
        | ':' :: rest2 =>
          match parseStep fuel .value rest2 with
          | some (v, rest3) =>
            match skipWs rest3 with
            | ',' :: rest4 => parseStep fuel (.objFields ((key, v) :: acc)) rest4
            | d :: rest4 =>
              if d = Char.ofNat 125 then some (.obj ((key, v) :: acc).reverse, rest4)
              else none
            | [] => none
          | none => none
        | _ => none
      | none => none
    | _ => none
  | fuel + 1, .arrElems acc, s =>
    match parseStep fuel .value s with
    | some (v, rest) =>
      match skipWs rest with
      | ',' :: rest2 => parseStep fuel (.arrElems (v :: acc)) rest2
      | ']' :: rest2 => some (.arr (v :: acc).reverse, rest2)
      | _ => none
    | none => none

/-- The embedding of `JSON.parse`: parse a complete JSON text, rejecting
trailing garbage; `none` models the thrown `SyntaxError`. -/
def jsonParse (s : String) : Option JsonVal :=
  match parseStep (2 * s.length + 2) .value s.data with
  | some (v, rest) => if (skipWs rest).isEmpty then some v else none
  | none => none

/-- Object field access, the image of optional chaining `obj?.key`. -/
def jsonField (v : JsonVal) (key : String) : Option JsonVal :=
  match v with
  | .obj fields => (fields.find? fun f => f.1 == key).map Prod.snd
  | _ => none

/-- Array index access, the image of optional chaining `arr?.[i]`. -/
def jsonIndex (v : JsonVal) (i : Nat) : Option JsonVal :=
  match v with
  | .arr elems => elems.get? i
  | _ => none

/-- The delta extraction `obj?.choices?.[0]?.delta?.content ?? ''` shared by
the route's SSE helper and the page's read loop: absence of the path (or a
non-string leaf) yields the empty fragment. -/
def deltaContentOf (v : JsonVal) : String :=
  match (((jsonField v "choices").bind fun c => jsonIndex c 0).bind
      fun e => jsonField e "delta").bind fun d => jsonField d "content" with
  | some (.str s) => s
  | _ => ""

/-- The conversation update for one extracted fragment (page lines 91-98):
append to the last message only when it is an assistant message, otherwise
leave the conversation unchanged. -/
def appendDelta (curr : List CMsg) (delta : String) : List CMsg :=
  match curr.getLast? with
  | some last =>
    if last.role == "assistant" then
      curr.dropLast ++ [⟨"assistant", last.content ++ delta⟩]
    else curr
  | none => curr

/-- Processing of one complete (already trimmed) line of the read loop
(page lines 82-101): ignore non-marker lines, empty payloads and the
terminal sentinel; parse the payload, silently ignoring malformed JSON;
append a non-empty extracted fragment. -/
def processLine (line : String) (msgs : List CMsg) : List CMsg :=
  if !(strBegins line "data:") then msgs
  else
    let payload := strTrim (strDrop line 5)
    if payload == "" || payload == "[DONE]" then msgs
    else
      match jsonParse payload with
      | none => msgs
      | some obj =>
        let delta := deltaContentOf obj
        if delta == "" then msgs
        else appendDelta msgs delta

/-- Split the buffer at its first newline, returning the line before it and
the remainder after it (`none` when the buffer holds no newline, mirroring
`buffer.indexOf('\n') === -1`). -/
def splitAtNewline : List Char → Option (List Char × List Char)
  | [] => none
  | c :: cs =>
    if c = '\n' then some ([], cs)
    else
      match splitAtNewline cs with
      | some (l, r) => some (c :: l, r)
      | none => none

/-- The inner line-extraction loop of the reader (page lines 77-102),
fuel-bounded: repeatedly strip complete newline-terminated lines off the
buffer, trim and process each, and return the leftover buffer with the
updated conversation. Every iteration consumes at least one buffer
character, so fuel at least the buffer length is never exhausted. -/
def drainFuel : Nat → List Char → List CMsg → List Char × List CMsg
  | 0, buf, msgs => (buf, msgs)
  | fuel + 1, buf, msgs =>
    match splitAtNewline buf with
    | none => (buf, msgs)
    | some (l, r) => drainFuel fuel r (processLine (strTrim (String.mk l)) msgs)

/-- The inner line-extraction loop with its exact fuel. -/
def drainAux (buf : List Char) (msgs : List CMsg) : List Char × List CMsg :=
  drainFuel buf.length buf msgs

/-- The renderer's state across reads: the reassembly buffer and the
conversation being displayed. -/
structure ClientState where
  buffer : List Char
  messages : List CMsg
deriving DecidableEq

/-- Processing of one decoded read chunk (page lines 73-102): append to the
buffer, then drain all complete lines. -/
def processChunk (st : ClientState) (chunk : String) : ClientState :=
  let p := drainAux (st.buffer ++ chunk.data) st.messages
  ⟨p.1, p.2⟩

/-- The whole read loop over a finite sequence of decoded chunks. -/
def runStream (chunks : List String) (st : ClientState) : ClientState :=
  match chunks with
  | [] => st
  | c :: cs => runStream cs (processChunk st c)

/-! ## Client-side send, cancellation and error handling (app/page.tsx) -/

/-- The client-side placeholder filter (page lines 35-37): drop assistant
messages with empty or whitespace content before the fetch. -/
def messagesForApi (next : List CMsg) : List CMsg :=
  next.filter fun m => !(m.role == "assistant" && strTrim m.content == "")

/-- The page component's state relevant to `send`, `stop` and the read loop:
the conversation, the input field, the pending flag, the registered abort
controller (by identifier) and the reader reference. -/
structure UIState where
  messages : List CMsg
  input : String
  pending : Bool
  abortCtrl : Option Nat
  readerHeld : Bool
deriving DecidableEq

/-- The externally visible actions of the start of `send`: aborting a prior
controller and issuing the fetch with a request body. -/
inductive SendEvent where
  | abortPrior (id : Nat)
  | startFetch (id : Nat) (body : List CMsg)
deriving DecidableEq

/-- The synchronous prefix of `send` (page lines 21-48): refuse when the
input is blank or a request is pending; otherwise append the user message
and the empty assistant placeholder, clear the input, set pending, abort any
registered prior controller, register the new one, and issue the fetch with
the placeholder-filtered conversation. -/
def sendStart (st : UIState) (newId : Nat) : UIState × List SendEvent :=
  if strTrim st.input == "" || st.pending then (st, [])
  else
    let next := st.messages ++ [⟨"user", st.input⟩, ⟨"assistant", ""⟩]
    let evts :=
      (match st.abortCtrl with
       | some oldId => [SendEvent.abortPrior oldId]
       | none => []) ++ [SendEvent.startFetch newId (messagesForApi next)]
    ({ st with
        messages := next
        input := ""
        pending := true
        abortCtrl := some newId }, evts)

/-- The `stop` handler (page lines 125-130): cancel the reader, abort and
clear the controller, clear the pending flag; the conversation is untouched. -/
def stopFn (st : UIState) : UIState :=
  { st with pending := false, abortCtrl := none, readerHeld := false }

/-- A JavaScript exception as observed by the catch block: its `name` and
`message`. -/
structure JsErr where
  name : String
  message : String
deriving DecidableEq

/-- The abort test of the catch block (page line 106):
`err?.name === 'AbortError' || /aborted|BodyStreamBuffer was aborted/i.test(err?.message)`. -/
def isAbortError (e : JsErr) : Bool :=
  e.name == "AbortError"
    || containsStr (strLower e.message) "aborted"
    || containsStr (strLower e.message) "bodystreambuffer was aborted"

/-- The display text of a surfaced exception:
`err?.message || String(err)` (an `Error` stringifies to its name when the
message is empty). -/
def errDisplay (e : JsErr) : String :=
  "⚠️ " ++ (if e.message == "" then e.name else e.message)

/-- How the read loop ended: normal completion (`done`), or a thrown
exception (including the abort of a cancelled read). -/
inductive ReadOutcome where
  | completed
  | errored (e : JsErr)
deriving DecidableEq

/-- The error-message append of the catch block (page lines 110-116): the
last message is replaced; an assistant last message keeps its content with
the error appended after a blank line, any other last message is replaced
by a fresh assistant error message. -/
def appendErrorMsg (curr : List CMsg) (msg : String) : List CMsg :=
  match curr.getLast? with
  | none => curr
  | some last =>
    curr.dropLast ++
      [⟨"assistant",
        if last.role == "assistant" then last.content ++ "\n\n" ++ msg else msg⟩]

/-- The outcome of the whole catch/finally tail of `send`
(page lines 104-123) applied to the conversation as updated by the stream:
abort-classified errors are suppressed, other errors are surfaced; the
finally block always releases the reader, clears pending and clears the
controller. -/
structure LoopResult where
  messages : List CMsg
  pending : Bool
  readerHeld : Bool
  abortCtrl : Option Nat
deriving DecidableEq

/-- The catch and finally blocks of the read loop (page lines 104-123). -/
def readLoopFinish (streamed : List CMsg) (outcome : ReadOutcome) : LoopResult :=
  match outcome with
  | .completed => ⟨streamed, false, false, none⟩
  | .errored e =>
    if isAbortError e then ⟨streamed, false, false, none⟩
    else ⟨appendErrorMsg streamed (errDisplay e), false, false, none⟩

/-- The read loop body plus its catch/finally tail: run the stream over the
chunks that arrived, then finish with the given outcome. -/
def runSendLoop (initMsgs : List CMsg) (chunks : List String)
    (outcome : ReadOutcome) : LoopResult :=
  readLoopFinish (runStream chunks ⟨[], initMsgs⟩).messages outcome

/-- A placeholder as the route filter drops it: assistant role, blank
content, no tool invocation. -/
def isPlaceholderMsg (m : Msg) : Bool :=
  m.role == "assistant" && strTrim m.content == "" && m.tool_calls.isEmpty

/-- A placeholder as the page filter drops it: assistant role, blank content. -/
def isPlaceholderCMsg (m : CMsg) : Bool :=
  m.role == "assistant" && strTrim m.content == ""

/-! ## Concrete fixtures for closed runs -/

/-- A configured server environment for concrete runs. -/
def envA : Env := { key := some "test-key", caPathUsed := none, allowInsecure := false }

/-- A one-message request payload preferring the default model. -/
def payloadA : Payload :=
  { messages := [⟨"user", "hi", []⟩], model := some "mistral-large-latest"
    temperature := none }

/-- A request payload whose conversation ends in a whitespace assistant
placeholder. -/
def payloadB : Payload :=
  { messages := [⟨"user", "hi", []⟩, ⟨"assistant", " ", []⟩]
    model := some "mistral-large-latest", temperature := none }

/-- An upstream that always reports capacity exhaustion. -/
def upstreamAllCapacity : Nat → UpstreamRes := fun _ => { status := 429, data := some "" }

/-- An upstream giving three capacity errors, then success. -/
def upstreamThreeCapacity : Nat → UpstreamRes := fun k =>
  if k < 3 then { status := 429, data := some "" }
  else { status := 200, data := some "data: [DONE]\n" }

/-- An upstream that fails immediately with a non-capacity 400. -/
def upstreamBadRequest : Nat → UpstreamRes :=
  fun _ => { status := 400, data := some "bad request" }

/-- The renderer state at the start of a read loop for a one-turn
conversation: the user turn and the assistant placeholder. -/
def clientStart : ClientState :=
  ⟨[], [⟨"user", "Bonjour! Parlez-moi du fromage."⟩, ⟨"assistant", ""⟩]⟩

/-- A UI state with a request in flight and a registered controller. -/
def stHot : UIState :=
  ⟨[⟨"user", "hi"⟩, ⟨"assistant", "partial"⟩], "again", true, some 0, true⟩

/-- An idle UI state with a stale controller still registered. -/
def stIdle : UIState := ⟨[], "hello", false, some 7, false⟩

/-! ## String lemmas -/

theorem strData_append (a b : String) : (a ++ b).data = a.data ++ b.data := by
  rcases a with ⟨la⟩; rcases b with ⟨lb⟩; rfl

theorem strAppend_assoc (a b c : String) : a ++ b ++ c = a ++ (b ++ c) := by
  rcases a with ⟨la⟩; rcases b with ⟨lb⟩; rcases c with ⟨lc⟩
  show String.mk (la ++ lb ++ lc) = String.mk (la ++ (lb ++ lc))
  rw [List.append_assoc]

theorem strAppend_empty (s : String) : s ++ "" = s := by
  rcases s with ⟨l⟩
  show String.mk (l ++ []) = String.mk l
  rw [List.append_nil]

theorem strEmpty_append (s : String) : "" ++ s = s := by
  rcases s with ⟨l⟩; rfl

/-! ## Occurrence decomposition lemmas -/

theorem exDecomp_left (x c : String) {s : String} (h : ∃ a b, s = a ++ c ++ b) :
    ∃ a b, x ++ s = a ++ c ++ b := by
  obtain ⟨a, b, rfl⟩ := h
  exact ⟨x ++ a, b, by simp [strAppend_assoc]⟩

theorem exDecomp_right (y c : String) {s : String} (h : ∃ a b, s = a ++ c ++ b) :
    ∃ a b, s ++ y = a ++ c ++ b := by
  obtain ⟨a, b, rfl⟩ := h
  exact ⟨a, b ++ y, by simp [strAppend_assoc]⟩

theorem jsonQuote_decomp (c : String) : ∃ a b, jsonQuote c = a ++ c ++ b :=
  ⟨"\"", "\"", rfl⟩

theorem jsonStrListAux_decomp : ∀ (l : List String) (c : String), c ∈ l →
    ∃ a b, jsonStrListAux l = a ++ c ++ b := by
  intro l
  induction l with
  | nil => intro c hc; simp at hc
  | cons s rest ih =>
    intro c hc
    rcases List.mem_cons.mp hc with rfl | hc2
    · cases rest with
      | nil => exact jsonQuote_decomp c
      | cons t ts =>
        simp only [jsonStrListAux]
        exact exDecomp_right _ _ (exDecomp_right _ _ (jsonQuote_decomp c))
    · cases rest with
      | nil => simp at hc2
      | cons t ts =>
        simp only [jsonStrListAux]
        exact exDecomp_left _ _ (ih c hc2)

theorem capacityBody_names (env : Env) (tried : List String) (c : String)
    (hc : c ∈ tried) : ∃ a b, (capacityResponse env tried).body = a ++ c ++ b := by
  have h2 : ∃ a b, jsonStrList tried = a ++ c ++ b := by
    simp only [jsonStrList]
    exact exDecomp_right _ _ (exDecomp_left _ _ (jsonStrListAux_decomp tried c hc))
  show ∃ a b, "Capacity exceeded for all candidates.\n" ++ metaCapacity env tried
      = a ++ c ++ b
  apply exDecomp_left
  simp only [metaCapacity]
  apply exDecomp_right
  exact exDecomp_left _ _ h2

/-! ## Proxy loop attempt classification -/

theorem attemptOnce_capacity (env : Env) (m : String) (r : UpstreamRes)
    (h : capacitySignal r = true) : attemptOnce env m r = none := by
  unfold capacitySignal at h
  rw [Bool.and_eq_true, Bool.not_eq_true'] at h
  simp [attemptOnce, h.1, h.2]

theorem attemptOnce_success (env : Env) (m : String) (r : UpstreamRes)
    (h : upstreamSuccess r = true) :
    attemptOnce env m r = some { status := 200, body := r.data.getD "", modelUsed := some m } := by
  unfold upstreamSuccess at h
  simp [attemptOnce, h]

theorem attemptOnce_hardError (env : Env) (m : String) (r : UpstreamRes)
    (h1 : upstreamSuccess r = false) (h2 : is429 r.status (errTextOf r) = false) :
    attemptOnce env m r = some (upstreamErrResponse r m env) := by
  unfold upstreamSuccess at h1
  simp [attemptOnce, h1, h2]

/-- C1: when all six candidate attempts (two per model, in candidate order)
return capacity signals, the route answers 429, the upstream request trace
is exactly two identical requests per candidate in the fixed order
(preferred, then the medium and small fallbacks), and the capacity-exhausted
body names every attempted candidate. -/
theorem capacity_exhaustion_all_candidates (env : Env) (payload : Payload)
    (upstream : Nat → UpstreamRes)
    (hkey : env.key.isSome = true)
    (hcap : ∀ i, i < 6 → capacitySignal (upstream i) = true) :
    (POST env (.ok payload) upstream).1.status = 429 ∧
    (POST env (.ok payload) upstream).2 =
      [mkRequest (payload.model.getD "mistral-large-latest")
          (filterMessages payload.messages) (payload.temperature.getD (2 / 10 : Rat)),
        mkRequest (payload.model.getD "mistral-large-latest")
          (filterMessages payload.messages) (payload.temperature.getD (2 / 10 : Rat)),
        mkRequest "mistral-medium-latest" (filterMessages payload.messages)
          (payload.temperature.getD (2 / 10 : Rat)),
        mkRequest "mistral-medium-latest" (filterMessages payload.messages)
          (payload.temperature.getD (2 / 10 : Rat)),
        mkRequest "mistral-small-latest" (filterMessages payload.messages)
          (payload.temperature.getD (2 / 10 : Rat)),
        mkRequest "mistral-small-latest" (filterMessages payload.messages)
          (payload.temperature.getD (2 / 10 : Rat))] ∧
    (∀ c, c ∈ [payload.model.getD "mistral-large-latest", "mistral-medium-latest",
        "mistral-small-latest"] →
      ∃ a b, (POST env (.ok payload) upstream).1.body = a ++ c ++ b) := by
  obtain ⟨k, hk⟩ := Option.isSome_iff_exists.mp hkey
  have h0 := attemptOnce_capacity env (payload.model.getD "mistral-large-latest")
    (upstream 0) (hcap 0 (by omega))
  have h1 := attemptOnce_capacity env (payload.model.getD "mistral-large-latest")
    (upstream 1) (hcap 1 (by omega))
  have h2 := attemptOnce_capacity env "mistral-medium-latest" (upstream 2) (hcap 2 (by omega))
  have h3 := attemptOnce_capacity env "mistral-medium-latest" (upstream 3) (hcap 3 (by omega))
  have h4 := attemptOnce_capacity env "mistral-small-latest" (upstream 4) (hcap 4 (by omega))
  have h5 := attemptOnce_capacity env "mistral-small-latest" (upstream 5) (hcap 5 (by omega))
  have hred : POST env (.ok payload) upstream =
      (capacityResponse env [payload.model.getD "mistral-large-latest",
        "mistral-medium-latest", "mistral-small-latest"],
       [mkRequest (payload.model.getD "mistral-large-latest")
          (filterMessages payload.messages) (payload.temperature.getD (2 / 10 : Rat)),
        mkRequest (payload.model.getD "mistral-large-latest")
          (filterMessages payload.messages) (payload.temperature.getD (2 / 10 : Rat)),
        mkRequest "mistral-medium-latest" (filterMessages payload.messages)
          (payload.temperature.getD (2 / 10 : Rat)),
        mkRequest "mistral-medium-latest" (filterMessages payload.messages)
          (payload.temperature.getD (2 / 10 : Rat)),
        mkRequest "mistral-small-latest" (filterMessages payload.messages)
          (payload.temperature.getD (2 / 10 : Rat)),
        mkRequest "mistral-small-latest" (filterMessages payload.messages)
          (payload.temperature.getD (2 / 10 : Rat))]) := by
    simp only [POST, hk, tryCandidates, Nat.reduceAdd, h0, h1, h2, h3, h4, h5]
  refine ⟨by rw [hred]; rfl, by rw [hred], ?_⟩
  intro c hc
  rw [hred]
  exact capacityBody_names env _ c hc

/-- C1 witness: with every attempt answering 429, the concrete run returns
the capacity-exhausted status. -/
theorem capacity_exhaustion_all_candidates_witness :
    (POST envA (.ok payloadA) upstreamAllCapacity).1.status = 429 :=
  (capacity_exhaustion_all_candidates envA payloadA upstreamAllCapacity
    (by decide) (by decide)).1

/-- C2 counterexample: after exactly three capacity errors (two on the
preferred model, one on the first fallback) and a success on the next
attempted request, the model-used header names the FIRST fallback
(mistral-medium-latest), not the second fallback the claim expects. -/
theorem three_capacity_then_success_header :
    capacitySignal (upstreamThreeCapacity 0) = true ∧
    capacitySignal (upstreamThreeCapacity 1) = true ∧
    capacitySignal (upstreamThreeCapacity 2) = true ∧
    upstreamSuccess (upstreamThreeCapacity 3) = true ∧
    (POST envA (.ok payloadA) upstreamThreeCapacity).1.modelUsed
      = some "mistral-medium-latest" ∧
    (POST envA (.ok payloadA) upstreamThreeCapacity).1.modelUsed
      ≠ some "mistral-small-latest" := by
  refine ⟨by decide, by decide, by decide, by decide, by decide, by decide⟩

/-- C2 (amended): after three capacity errors on the first three attempts
and a success on the fourth attempted request — the first fallback's retry —
the success carries status 200 and the model-used header equal to the first
fallback identifier, mistral-medium-latest. -/
theorem header_after_three_capacity (env : Env) (payload : Payload)
    (upstream : Nat → UpstreamRes)
    (hkey : env.key.isSome = true)
    (hcap : ∀ i, i < 3 → capacitySignal (upstream i) = true)
    (hsucc : upstreamSuccess (upstream 3) = true) :
    (POST env (.ok payload) upstream).1.modelUsed = some "mistral-medium-latest" ∧
    (POST env (.ok payload) upstream).1.status = 200 := by
  obtain ⟨k, hk⟩ := Option.isSome_iff_exists.mp hkey
  have h0 := attemptOnce_capacity env (payload.model.getD "mistral-large-latest")
    (upstream 0) (hcap 0 (by omega))
  have h1 := attemptOnce_capacity env (payload.model.getD "mistral-large-latest")
    (upstream 1) (hcap 1 (by omega))
  have h2 := attemptOnce_capacity env "mistral-medium-latest" (upstream 2) (hcap 2 (by omega))
  have h3 := attemptOnce_success env "mistral-medium-latest" (upstream 3) hsucc
  have hred : (POST env (.ok payload) upstream).1 =
      { status := 200, body := (upstream 3).data.getD ""
        modelUsed := some "mistral-medium-latest" } := by
    simp only [POST, hk, tryCandidates, Nat.reduceAdd, h0, h1, h2, h3]
  rw [hred]
  exact ⟨rfl, rfl⟩

/-- C2 witness: the amended statement on the concrete three-capacity run. -/
theorem header_after_three_capacity_witness :
    (POST envA (.ok payloadA) upstreamThreeCapacity).1.modelUsed
      = some "mistral-medium-latest" :=
  (header_after_three_capacity envA payloadA upstreamThreeCapacity
    (by decide) (by decide) (by decide)).1

/-- C3 counterexample: a non-capacity 400 with body `bad request` is
answered with the same 400 status but a response body that is not the
upstream body verbatim — it is wrapped with an `Upstream 400:` prefix and
diagnostic metadata. -/
theorem upstream_error_body_not_verbatim :
    upstreamSuccess (upstreamBadRequest 0) = false ∧
    is429 (upstreamBadRequest 0).status (errTextOf (upstreamBadRequest 0)) = false ∧
    (POST envA (.ok payloadA) upstreamBadRequest).1.status = 400 ∧
    (POST envA (.ok payloadA) upstreamBadRequest).1.body ≠ "bad request" := by
  refine ⟨by decide, by decide, by decide, by decide⟩

/-- C3 (amended): on a first-attempt upstream response that is neither a
success nor a capacity signal, the route returns immediately: the exact
upstream status, a body embedding the upstream error text (prefixed by
`Upstream <status>:` and followed by metadata), and exactly one upstream
request is ever issued. -/
theorem non_capacity_error_immediate (env : Env) (payload : Payload)
    (upstream : Nat → UpstreamRes)
    (hkey : env.key.isSome = true)
    (hns : upstreamSuccess (upstream 0) = false)
    (hnc : is429 (upstream 0).status (errTextOf (upstream 0)) = false) :
    (POST env (.ok payload) upstream).1.status = (upstream 0).status ∧
    (POST env (.ok payload) upstream).1.body =
      "Upstream " ++ toString (upstream 0).status ++ ": " ++ errTextOf (upstream 0)
        ++ "\n" ++ metaError (upstream 0).status
            (payload.model.getD "mistral-large-latest") env ∧
    (∃ a b, (POST env (.ok payload) upstream).1.body
        = a ++ errTextOf (upstream 0) ++ b) ∧
    (POST env (.ok payload) upstream).2.length = 1 := by
  obtain ⟨k, hk⟩ := Option.isSome_iff_exists.mp hkey
  have h0 := attemptOnce_hardError env (payload.model.getD "mistral-large-latest")
    (upstream 0) hns hnc
  have hred : POST env (.ok payload) upstream =
      (upstreamErrResponse (upstream 0) (payload.model.getD "mistral-large-latest") env,
       [mkRequest (payload.model.getD "mistral-large-latest")
          (filterMessages payload.messages)
          (payload.temperature.getD (2 / 10 : Rat))]) := by
    simp only [POST, hk, tryCandidates, h0]
  refine ⟨by rw [hred]; rfl, by rw [hred]; rfl, ?_, by rw [hred]; rfl⟩
  rw [hred]
  simp only [upstreamErrResponse]
  apply exDecomp_right
  apply exDecomp_right
  exact ⟨"Upstream " ++ toString (upstream 0).status ++ ": ", "",
    by rw [strAppend_empty]⟩

/-- C3 witness: the amended statement on the concrete 400 run. -/
theorem non_capacity_error_immediate_witness :
    (POST envA (.ok payloadA) upstreamBadRequest).1.status = 400 ∧
    (POST envA (.ok payloadA) upstreamBadRequest).2.length = 1 := by
  have h := non_capacity_error_immediate envA payloadA upstreamBadRequest
    (by decide) (by decide) (by decide)
  exact ⟨h.1, h.2.2.2⟩

/-! ## Request trace lemmas for the placeholder filter -/

theorem tryCandidates_requests_messages (env : Env) (upstream : Nat → UpstreamRes)
    (msgs : List Msg) (temp : Rat) (tried : List String) :
    ∀ (cands : List String) (k : Nat) (req : UpstreamRequest),
      req ∈ (tryCandidates env upstream msgs temp tried cands k).2 →
      req.messages = msgs := by
  intro cands
  induction cands with
  | nil => intro k req h; simp [tryCandidates] at h
  | cons m rest ih =>
    intro k req h
    simp only [tryCandidates] at h
    cases h0 : attemptOnce env m (upstream k) with
    | some resp =>
      rw [h0] at h
      simp only [List.mem_singleton] at h
      rw [h]; rfl
    | none =>
      rw [h0] at h
      cases h1 : attemptOnce env m (upstream (k + 1)) with
      | some resp =>
        rw [h1] at h
        simp only [List.mem_cons, List.not_mem_nil, or_false] at h
        rcases h with rfl | rfl <;> rfl
      | none =>
        rw [h1] at h
        simp only [List.mem_cons] at h
        rcases h with rfl | h
        · rfl
        rcases h with rfl | h3
        · rfl
        · exact ih (k + 2) req h3

theorem POST_requests_messages (env : Env) (payload : Payload)
    (upstream : Nat → UpstreamRes) (req : UpstreamRequest)
    (h : req ∈ (POST env (.ok payload) upstream).2) :
    req.messages = filterMessages payload.messages := by
  unfold POST at h
  cases hk : env.key with
  | none => rw [hk] at h; simp at h
  | some k =>
    rw [hk] at h
    exact tryCandidates_requests_messages env upstream _ _ _ _ _ req h

theorem placeholder_not_in_filter (m : Msg) (h : isPlaceholderMsg m = true)
    (l : List Msg) : m ∉ filterMessages l := by
  intro hmem
  rw [filterMessages, List.mem_filter] at hmem
  have h2 := hmem.2
  rw [isPlaceholderMsg] at h
  rw [h] at h2
  simp at h2

theorem cplaceholder_not_in_filter (c : CMsg) (h : isPlaceholderCMsg c = true)
    (l : List CMsg) : c ∉ messagesForApi l := by
  intro hmem
  rw [messagesForApi, List.mem_filter] at hmem
  have h2 := hmem.2
  rw [isPlaceholderCMsg] at h
  rw [h] at h2
  simp at h2

theorem sendStart_fetch_body (st : UIState) (newId i : Nat) (body : List CMsg)
    (h : SendEvent.startFetch i body ∈ (sendStart st newId).2) :
    body = messagesForApi
      (st.messages ++ [⟨"user", st.input⟩, ⟨"assistant", ""⟩]) := by
  unfold sendStart at h
  by_cases hg : (strTrim st.input == "" || st.pending) = true
  · rw [if_pos hg] at h; simp at h
  · rw [if_neg hg] at h
    cases hac : st.abortCtrl with
    | none => rw [hac] at h; simp at h; exact h.2
    | some o => rw [hac] at h; simp at h; exact h.2

/-- C4: a blank assistant placeholder never reaches the upstream API: it is
absent from the message list of every upstream request the route issues,
and on the client it is absent from every fetch body that `send` emits. -/
theorem placeholder_never_sent_upstream (env : Env) (payload : Payload)
    (upstream : Nat → UpstreamRes) (m : Msg)
    (hm : isPlaceholderMsg m = true) :
    (∀ req ∈ (POST env (.ok payload) upstream).2, m ∉ req.messages) ∧
    (∀ (st : UIState) (newId i : Nat) (body : List CMsg) (c : CMsg),
      isPlaceholderCMsg c = true →
      SendEvent.startFetch i body ∈ (sendStart st newId).2 → c ∉ body) := by
  constructor
  · intro req hreq
    rw [POST_requests_messages env payload upstream req hreq]
    exact placeholder_not_in_filter m hm _
  · intro st newId i body c hc hmem
    rw [sendStart_fetch_body st newId i body hmem]
    exact cplaceholder_not_in_filter c hc _

/-- C4 witness: the whitespace placeholder of the concrete payload is
absent from the first upstream request of the concrete run. -/
theorem placeholder_never_sent_upstream_witness :
    (⟨"assistant", " ", []⟩ : Msg) ∉
      (mkRequest "mistral-large-latest" (filterMessages payloadB.messages)
        (2 / 10 : Rat)).messages :=
  (placeholder_never_sent_upstream envA payloadB upstreamAllCapacity
      ⟨"assistant", " ", []⟩ (by decide)).1
    (mkRequest "mistral-large-latest" (filterMessages payloadB.messages)
      (2 / 10 : Rat))
    (List.mem_cons_self _ _)

/-! ## Read-loop reassembly lemmas -/

theorem splitAtNewline_shorter :
    ∀ {buf l r : List Char}, splitAtNewline buf = some (l, r) → r.length < buf.length := by
  intro buf
  induction buf with
  | nil => intro l r h; simp [splitAtNewline] at h
  | cons c cs ih =>
    intro l r h
    simp only [splitAtNewline] at h
    by_cases hc : c = '\n'
    · rw [if_pos hc] at h
      injection h with h1
      injection h1 with h2 h3
      subst h3
      simp
    · rw [if_neg hc] at h
      cases hsplit : splitAtNewline cs with
      | none => rw [hsplit] at h; exact absurd h (by simp)
      | some p =>
        obtain ⟨l1, r1⟩ := p
        rw [hsplit] at h
        injection h with h1
        injection h1 with h2 h3
        subst h3
        have := ih hsplit
        simp
        omega

theorem splitAtNewline_append {buf l r : List Char} (e : List Char)
    (h : splitAtNewline buf = some (l, r)) :
    splitAtNewline (buf ++ e) = some (l, r ++ e) := by
  induction buf generalizing l with
  | nil => simp [splitAtNewline] at h
  | cons c cs ih =>
    simp only [splitAtNewline, List.cons_append, List.append_eq] at h ⊢
    by_cases hc : c = '\n'
    · rw [if_pos hc] at h ⊢
      injection h with h1
      injection h1 with h2 h3
      subst h2
      subst h3
      rfl
    · rw [if_neg hc] at h ⊢
      cases hs : splitAtNewline cs with
      | none => rw [hs] at h; exact absurd h (by simp)
      | some p =>
        obtain ⟨l1, r1⟩ := p
        rw [hs] at h
        injection h with h1
        injection h1 with h2 h3
        subst h2
        subst h3
        rw [ih hs]

theorem drainFuel_congr :
    ∀ (f g : Nat) (buf : List Char) (msgs : List CMsg),
      buf.length ≤ f → buf.length ≤ g →
      drainFuel f buf msgs = drainFuel g buf msgs := by
  intro f
  induction f with
  | zero =>
    intro g buf msgs hf hg
    have hb : buf = [] := List.eq_nil_of_length_eq_zero (Nat.le_zero.mp hf)
    subst hb
    cases g with
    | zero => rfl
    | succ g => simp [drainFuel, splitAtNewline]
  | succ f ih =>
    intro g buf msgs hf hg
    cases g with
    | zero =>
      have hb : buf = [] := List.eq_nil_of_length_eq_zero (Nat.le_zero.mp hg)
      subst hb
      simp [drainFuel, splitAtNewline]
    | succ g =>
      cases hs : splitAtNewline buf with
      | none => simp only [drainFuel, hs]
      | some p =>
        obtain ⟨l, r⟩ := p
        simp only [drainFuel, hs]
        have hr := splitAtNewline_shorter hs
        exact ih g r _ (by omega) (by omega)

theorem drainAux_step {buf l r : List Char} (msgs : List CMsg)
    (hs : splitAtNewline buf = some (l, r)) :
    drainAux buf msgs = drainAux r (processLine (strTrim (String.mk l)) msgs) := by
  have hr := splitAtNewline_shorter hs
  unfold drainAux
  cases hb : buf with
  | nil => rw [hb] at hs; simp [splitAtNewline] at hs
  | cons c cs =>
    rw [hb] at hs hr
    simp only [List.length_cons, drainFuel, hs]
    refine drainFuel_congr cs.length r.length r _ ?_ (le_refl _)
    simp only [List.length_cons] at hr
    omega

theorem drainAux_append :
    ∀ (n : Nat) (buf : List Char), buf.length ≤ n →
      ∀ (msgs : List CMsg) (e : List Char),
        drainAux (buf ++ e) msgs =
          drainAux ((drainAux buf msgs).1 ++ e) (drainAux buf msgs).2 := by
  intro n
  induction n with
  | zero =>
    intro buf hb msgs e
    have hnil : buf = [] := List.eq_nil_of_length_eq_zero (Nat.le_zero.mp hb)
    subst hnil
    simp [drainAux, drainFuel]
  | succ n ih =>
    intro buf hb msgs e
    cases hs : splitAtNewline buf with
    | none =>
      have h1 : drainAux buf msgs = (buf, msgs) := by
        unfold drainAux
        cases hb2 : buf with
        | nil => rfl
        | cons c cs => rw [hb2] at hs; simp only [List.length_cons, drainFuel, hs]
      rw [h1]
    | some p =>
      obtain ⟨l, r⟩ := p
      have hr := splitAtNewline_shorter hs
      have hs2 := splitAtNewline_append e hs
      rw [drainAux_step msgs hs2, drainAux_step msgs hs]
      exact ih r (by omega) _ e

theorem processChunk_append (st : ClientState) (c1 c2 : String) :
    processChunk (processChunk st c1) c2 = processChunk st (c1 ++ c2) := by
  unfold processChunk
  simp only [strData_append, ← List.append_assoc]
  rw [drainAux_append (st.buffer ++ c1.data).length (st.buffer ++ c1.data)
    (le_refl _) st.messages c2.data]

theorem processLine_parse_fail (line : String) (msgs : List CMsg)
    (hnone : jsonParse (strTrim (strDrop line 5)) = none) :
    processLine line msgs = msgs := by
  unfold processLine
  cases hb : strBegins line "data:" with
  | false => rfl
  | true =>
    simp only [Bool.not_true]
    rw [if_neg Bool.false_ne_true]
    by_cases hp : (strTrim (strDrop line 5) == "" || strTrim (strDrop line 5) == "[DONE]") = true
    · simp [hp]
    · have hp2 := Bool.eq_false_iff.mpr hp
      simp [hp2, hnone]

/-- C6: lines split across reads are reassembled before extraction: running
the reader on two chunks equals running it on their concatenation (so a
fragment is extracted exactly once, only after the complete line arrived);
the concrete split of the specification yields one fragment; and a line
whose payload is not complete valid JSON is silently ignored. -/
theorem split_line_reassembly :
    (∀ (st : ClientState) (c1 c2 : String),
      runStream [c1, c2] st = runStream [c1 ++ c2] st) ∧
    ((runStream ["data: \x7b\"choi",
        "ces\":[\x7b\"delta\":\x7b\"content\":\"Hi\"\x7d\x7d]\x7d\n"]
        ⟨[], [⟨"assistant", ""⟩]⟩).messages = [⟨"assistant", "Hi"⟩]) ∧
    (∀ (line : String) (msgs : List CMsg),
      jsonParse (strTrim (strDrop line 5)) = none →
      processLine line msgs = msgs) := by
  refine ⟨?_, by decide, processLine_parse_fail⟩
  intro st c1 c2
  show runStream [] (processChunk (processChunk st c1) c2)
      = runStream [] (processChunk st (c1 ++ c2))
  rw [processChunk_append]

/-- C6 witness: a valid line split mid-JSON across two chunks extracts its
fragment exactly once, as if it had arrived whole; a bare partial-JSON line
is ignored. -/
theorem split_line_reassembly_witness :
    runStream ["data: \x7b\"choi", "ces\":[]\x7d\n"] (ClientState.mk [] [])
      = runStream ["data: \x7b\"choices\":[]\x7d\n"] (ClientState.mk [] []) ∧
    processLine "data: \x7b\"choi" [⟨"assistant", "A"⟩] = [⟨"assistant", "A"⟩] :=
  ⟨split_line_reassembly.1 (ClientState.mk [] []) "data: \x7b\"choi" "ces\":[]\x7d\n",
   split_line_reassembly.2.2 "data: \x7b\"choi" [⟨"assistant", "A"⟩] rfl⟩

theorem processLine_no_delta (line : String) (msgs : List CMsg) (obj : JsonVal)
    (hsome : jsonParse (strTrim (strDrop line 5)) = some obj)
    (hdelta : deltaContentOf obj = "") : processLine line msgs = msgs := by
  unfold processLine
  cases hb : strBegins line "data:" with
  | false => rfl
  | true =>
    simp only [Bool.not_true]
    rw [if_neg Bool.false_ne_true]
    by_cases hp : (strTrim (strDrop line 5) == "" || strTrim (strDrop line 5) == "[DONE]") = true
    · simp [hp]
    · have hp2 := Bool.eq_false_iff.mpr hp
      simp [hp2, hsome, hdelta]

/-- C5: the finite Bonjour event stream renders the trailing assistant
message content as `Bonjour !`; lines without the data marker contribute
nothing; the terminal sentinel, empty payloads and payloads lacking the
delta-content path (empty extracted fragment) are all no-ops rather than
errors. -/
theorem stream_rendering_bonjour :
    ((runStream
        ["data: \x7b\"choices\":[\x7b\"delta\":\x7b\"content\":\"Bonjour\"\x7d\x7d]\x7d\n",
         "data: \x7b\"choices\":[\x7b\"delta\":\x7b\"content\":\" !\"\x7d\x7d]\x7d\n",
         "data: [DONE]\n"] clientStart).messages
      = [⟨"user", "Bonjour! Parlez-moi du fromage."⟩, ⟨"assistant", "Bonjour !"⟩]) ∧
    (∀ (line : String) (msgs : List CMsg),
      strBegins line "data:" = false → processLine line msgs = msgs) ∧
    (∀ msgs : List CMsg,
      processLine "data: [DONE]" msgs = msgs ∧
      processLine "data:" msgs = msgs ∧
      processLine "data: \x7b\"choices\":[]\x7d" msgs = msgs) ∧
    (∀ (line : String) (msgs : List CMsg) (obj : JsonVal),
      jsonParse (strTrim (strDrop line 5)) = some obj →
      deltaContentOf obj = "" → processLine line msgs = msgs) := by
  refine ⟨by decide, ?_, ?_, processLine_no_delta⟩
  · intro line msgs hb
    unfold processLine
    rw [hb]
    rfl
  · intro msgs
    exact ⟨rfl, rfl, rfl⟩

/-- C5 witness: a non-marker line is a no-op, and a well-formed payload
without the delta-content path is a no-op. -/
theorem stream_rendering_bonjour_witness :
    processLine "event: ping" [] = [] ∧
    processLine "data: \x7b\"usage\":\x7b\x7d\x7d" [⟨"assistant", "A"⟩]
      = [⟨"assistant", "A"⟩] :=
  ⟨stream_rendering_bonjour.2.1 "event: ping" [] (by decide),
   stream_rendering_bonjour.2.2.2 "data: \x7b\"usage\":\x7b\x7d\x7d"
     [⟨"assistant", "A"⟩] (JsonVal.obj [("usage", JsonVal.obj [])]) rfl rfl⟩

/-- C7: every exit of the read loop releases the reader, clears the pending
flag and the controller; an abort-classified error is suppressed, leaving
the streamed conversation untouched; any other error is surfaced by
appending an error message; the stop handler also clears pending, aborts
the controller and cancels the reader. -/
theorem reader_release_and_abort_suppression (initMsgs : List CMsg)
    (chunks : List String) (outcome : ReadOutcome) :
    (runSendLoop initMsgs chunks outcome).readerHeld = false ∧
    (runSendLoop initMsgs chunks outcome).pending = false ∧
    (runSendLoop initMsgs chunks outcome).abortCtrl = none ∧
    (outcome = .completed →
      (runSendLoop initMsgs chunks outcome).messages
        = (runStream chunks ⟨[], initMsgs⟩).messages) ∧
    (∀ e, outcome = .errored e → isAbortError e = true →
      (runSendLoop initMsgs chunks outcome).messages
        = (runStream chunks ⟨[], initMsgs⟩).messages) ∧
    (∀ e, outcome = .errored e → isAbortError e = false →
      (runSendLoop initMsgs chunks outcome).messages
        = appendErrorMsg (runStream chunks ⟨[], initMsgs⟩).messages (errDisplay e)) ∧
    (∀ st : UIState, (stopFn st).pending = false ∧ (stopFn st).abortCtrl = none
      ∧ (stopFn st).readerHeld = false) := by
  cases outcome with
  | completed =>
    refine ⟨rfl, rfl, rfl, fun _ => rfl, ?_, ?_, fun st => ⟨rfl, rfl, rfl⟩⟩
    · intro e he; exact absurd he (by simp)
    · intro e he; exact absurd he (by simp)
  | errored e0 =>
    refine ⟨?_, ?_, ?_, ?_, ?_, ?_, fun st => ⟨rfl, rfl, rfl⟩⟩
    · by_cases ha : isAbortError e0 = true <;> simp [runSendLoop, readLoopFinish, ha]
    · by_cases ha : isAbortError e0 = true <;> simp [runSendLoop, readLoopFinish, ha]
    · by_cases ha : isAbortError e0 = true <;> simp [runSendLoop, readLoopFinish, ha]
    · intro h; exact absurd h (by simp)
    · intro e he hab
      injection he with he2
      subst he2
      simp [runSendLoop, readLoopFinish, hab]
    · intro e he hnab
      injection he with he2
      subst he2
      simp [runSendLoop, readLoopFinish, hnab]

/-- C7 witness: an abort-classified error after no chunks leaves the
conversation untouched, with the reader released and pending cleared. -/
theorem reader_release_and_abort_suppression_witness :
    (runSendLoop [⟨"assistant", ""⟩] [] (.errored ⟨"AbortError", ""⟩)).messages
      = [⟨"assistant", ""⟩] ∧
    (runSendLoop [⟨"assistant", ""⟩] [] (.errored ⟨"AbortError", ""⟩)).pending = false ∧
    (runSendLoop [⟨"assistant", ""⟩] [] (.errored ⟨"AbortError", ""⟩)).readerHeld = false :=
  have h := reader_release_and_abort_suppression [⟨"assistant", ""⟩] []
    (.errored ⟨"AbortError", ""⟩)
  ⟨h.2.2.2.2.1 ⟨"AbortError", ""⟩ rfl (by decide), h.2.1, h.1⟩

/-- C8 counterexample: with a request in flight (pending set, controller 0
registered) and nonblank input, invoking send does not cancel the prior
request and does not proceed: the state is unchanged and no abort or fetch
event is emitted. -/
theorem send_while_pending_is_noop :
    stHot.pending = true ∧ stHot.abortCtrl = some 0 ∧ strTrim stHot.input ≠ "" ∧
    sendStart stHot 1 = (stHot, []) := by
  refine ⟨by decide, by decide, by decide, by decide⟩

/-- C8 (amended): at most one request is in flight — while pending, send is
refused outright (the prior request continues, uncancelled); when nothing is
pending and the input is nonblank, send aborts any controller still
registered, issues exactly one fetch with the filtered conversation, and
enters the pending state with the new controller registered. -/
theorem single_flight_guard (st : UIState) (newId : Nat) :
    (st.pending = true → sendStart st newId = (st, [])) ∧
    (st.pending = false → strTrim st.input ≠ "" →
      (sendStart st newId).2 =
        (match st.abortCtrl with
         | some oldId => [SendEvent.abortPrior oldId]
         | none => []) ++
        [SendEvent.startFetch newId (messagesForApi
          (st.messages ++ [⟨"user", st.input⟩, ⟨"assistant", ""⟩]))] ∧
      (sendStart st newId).1.pending = true ∧
      (sendStart st newId).1.abortCtrl = some newId) := by
  constructor
  · intro hp
    unfold sendStart
    rw [if_pos (by rw [hp, Bool.or_true])]
  · intro hp hi
    have hi2 : (strTrim st.input == "") = false := beq_eq_false_iff_ne.mpr hi
    have hc : (strTrim st.input == "" || st.pending) = false := by
      rw [hi2, hp, Bool.or_false]
    unfold sendStart
    rw [if_neg (by simp [hc])]
    exact ⟨rfl, rfl, rfl⟩

/-- C8 witness: from an idle state with a stale controller, send aborts the
stale controller, then issues the single fetch and enters pending. -/
theorem single_flight_guard_witness :
    (sendStart stIdle 1).2 =
      [SendEvent.abortPrior 7,
        SendEvent.startFetch 1
          (messagesForApi ([] ++ [⟨"user", "hello"⟩, ⟨"assistant", ""⟩]))] ∧
    (sendStart stIdle 1).1.pending = true :=
  have h := (single_flight_guard stIdle 1).2 (by decide) (by decide)
  ⟨h.1, h.2.1⟩

/-- C9: partial output is never rolled back: normal completion and
abort-suppressed cancellation leave the streamed conversation untouched;
surfacing an error only extends the trailing assistant message, keeping its
prior content as a prefix and every earlier message in place; the stop
handler does not touch the conversation. -/
theorem partial_output_preserved (msgs : List CMsg) (e : JsErr) (last : CMsg) :
    ((readLoopFinish msgs .completed).messages = msgs) ∧
    (isAbortError e = true → (readLoopFinish msgs (.errored e)).messages = msgs) ∧
    (msgs.getLast? = some last → last.role = "assistant" → isAbortError e = false →
      ∃ extra, (readLoopFinish msgs (.errored e)).messages
        = msgs.dropLast ++ [⟨"assistant", last.content ++ extra⟩]) ∧
    (∀ st : UIState, (stopFn st).messages = st.messages) := by
  refine ⟨rfl, ?_, ?_, fun st => rfl⟩
  · intro ha; simp [readLoopFinish, ha]
  · intro hl hrole hna
    refine ⟨"\n\n" ++ errDisplay e, ?_⟩
    simp only [readLoopFinish, hna, Bool.false_eq_true, if_false]
    unfold appendErrorMsg
    rw [hl]
    have hb : (last.role == "assistant") = true := beq_iff_eq.mpr hrole
    simp only [hb, if_true]
    rw [strAppend_assoc]

/-- C9 witness: an abort after partial output preserves the rendered text. -/
theorem partial_output_preserved_witness :
    (readLoopFinish [⟨"user", "q"⟩, ⟨"assistant", "par"⟩]
        (.errored ⟨"AbortError", ""⟩)).messages
      = [⟨"user", "q"⟩, ⟨"assistant", "par"⟩] :=
  (partial_output_preserved [⟨"user", "q"⟩, ⟨"assistant", "par"⟩]
    ⟨"AbortError", ""⟩ ⟨"assistant", "par"⟩).2.1 (by decide)

/-- C10: appending a fragment touches only the trailing assistant message:
the conversation length is unchanged, every entry before the last is
unchanged; an assistant last message becomes its content extended by the
fragment; a non-assistant last message, or an empty conversation, leaves
the whole conversation unchanged. -/
theorem append_delta_frame (msgs : List CMsg) (delta : String) (last : CMsg) :
    ((appendDelta msgs delta).length = msgs.length) ∧
    (∀ i, i + 1 < msgs.length → (appendDelta msgs delta)[i]? = msgs[i]?) ∧
    (msgs.getLast? = some last → last.role = "assistant" →
      appendDelta msgs delta
        = msgs.dropLast ++ [⟨"assistant", last.content ++ delta⟩]) ∧
    (msgs.getLast? = some last → last.role ≠ "assistant" →
      appendDelta msgs delta = msgs) ∧
    (msgs.getLast? = none → appendDelta msgs delta = msgs) := by
  refine ⟨?_, ?_, ?_, ?_, ?_⟩
  · unfold appendDelta
    cases hl : msgs.getLast? with
    | none => rfl
    | some l0 =>
      by_cases hr : (l0.role == "assistant") = true
      · simp only [hr, if_true]
        have hne : msgs ≠ [] := by
          intro h; rw [h] at hl; simp at hl
        have hpos : 0 < msgs.length := List.length_pos.mpr hne
        simp only [List.length_append, List.length_dropLast, List.length_singleton]
        omega
      · simp [hr]
  · intro i hi
    unfold appendDelta
    cases hl : msgs.getLast? with
    | none => rfl
    | some l0 =>
      by_cases hr : (l0.role == "assistant") = true
      · simp only [hr, if_true]
        have hne : msgs ≠ [] := by
          intro h; rw [h] at hl; simp at hl
        have h1 : i < msgs.dropLast.length := by
          rw [List.length_dropLast]; omega
        rw [List.getElem?_append_left h1]
        conv_rhs => rw [← List.dropLast_append_getLast hne]
        rw [List.getElem?_append_left h1]
      · simp [hr]
  · intro hl hrole
    unfold appendDelta
    rw [hl]
    simp only [beq_iff_eq.mpr hrole, if_true]
  · intro hl hrole
    unfold appendDelta
    rw [hl]
    have hb : (last.role == "assistant") = false := beq_eq_false_iff_ne.mpr hrole
    simp [hb]
  · intro hl
    unfold appendDelta
    rw [hl]

/-- C10 witness: an assistant trailing message is extended by the fragment
and a user trailing message drops the fragment, with everything else
unchanged. -/
theorem append_delta_frame_witness :
    appendDelta [⟨"user", "q"⟩, ⟨"assistant", "Bon"⟩] "jour"
      = [⟨"user", "q"⟩, ⟨"assistant", "Bonjour"⟩] ∧
    appendDelta [⟨"user", "q"⟩] "x" = [⟨"user", "q"⟩] :=
  ⟨((append_delta_frame [⟨"user", "q"⟩, ⟨"assistant", "Bon"⟩] "jour"
      ⟨"assistant", "Bon"⟩).2.2.1 (by decide) rfl).trans (by decide),
   (append_delta_frame [⟨"user", "q"⟩] "x" ⟨"user", "q"⟩).2.2.2.1
     (by decide) (by decide)⟩
